import Mathlib

/-!
Shallow embedding of the SynQ quantum VM (vm/src/vm.rs, vm/src/opcode.rs) and
the PQC shims (pqc-shims/src/{dilithium,falcon,sphincs,kyber}.rs), together
with theorems settling the specification claims about it.

Bytes are modelled as `Nat` (well-formed inputs carry the bound `< 256` where
a proof needs it); machine integers are `Int`/`Nat` with explicit wrapping.
Rust `panic!` outcomes (out-of-bounds indexing, division overflow) are a
distinct result constructor, separate from the typed `VMError` results.
-/

namespace SynQ

/-- Little-endian reading of four bytes, as `u32::from_le_bytes`. -/
def decodeLe32 (b0 b1 b2 b3 : Nat) : Nat :=
  b0 + 256 * b1 + 65536 * b2 + 16777216 * b3

/-- Little-endian reading of two bytes, as `u16::from_le_bytes`. -/
def decodeLe16 (b0 b1 : Nat) : Nat :=
  b0 + 256 * b1

/-- Little-endian byte encoding of a `u32` value. -/
def encodeLe32 (n : Nat) : List Nat :=
  [n % 256, n / 256 % 256, n / 65536 % 256, n / 16777216 % 256]

/-- Little-endian byte encoding of a `u16` value. -/
def encodeLe16 (n : Nat) : List Nat :=
  [n % 256, n / 256 % 256]

/-- Reinterpret an unsigned 32-bit value as two's-complement signed,
as `i32::from_le_bytes` does on the already-assembled `u32`. -/
def toSigned32 (n : Nat) : Int :=
  if n < 2147483648 then (n : Int) else (n : Int) - 4294967296

/-- Wrap an integer into the `i32` range, the release-profile semantics of
Rust's `+`, `-`, `*` on `i32`. -/
def wrap32 (n : Int) : Int :=
  (n + 2147483648) % 4294967296 - 2147483648

/-- Truncating (toward-zero) division, the semantics of Rust's `/` on `i32`
whenever it does not panic. -/
def tdiv32 (a b : Int) : Int :=
  if (0 ≤ a) = (0 ≤ b) then ((a.natAbs / b.natAbs : Nat) : Int)
  else -((a.natAbs / b.natAbs : Nat) : Int)

/-- `usize` cast of an `i32` value on a 64-bit target (`v as usize`). -/
def usizeOfI32 (v : Int) : Nat :=
  (v % 18446744073709551616).toNat

/-- The error enumeration of `vm/src/opcode.rs` (`VMError`). -/
inductive VMError where
  | invalidBytecode (msg : String)
  | stackUnderflow
  | stackOverflow
  | invalidInstruction (op : Nat)
  | invalidAddress (addr : Nat)
  | cryptoError (msg : String)
  | runtimeError (msg : String)
deriving DecidableEq

/-- Result of a Rust function that can also panic (the `panic` constructor
models an aborted process, e.g. out-of-bounds slice indexing). -/
inductive PResult (α : Type) where
  | ok (a : α)
  | err (e : VMError)
  | panic
deriving DecidableEq

/-- The runtime value union of `vm/src/vm.rs` (`Value`). -/
inductive Value where
  | i32 (v : Int)
  | i64 (v : Int)
  | bytes (bs : List Nat)
  | bool (b : Bool)
deriving DecidableEq

/-- `Value::as_i32`. -/
def Value.as_i32 : Value → Option Int
  | .i32 v => some v
  | _ => none

/-- `Value::as_i64` (also widens an `I32`). -/
def Value.as_i64 : Value → Option Int
  | .i64 v => some v
  | .i32 v => some v
  | _ => none

/-- `Value::as_bytes`. -/
def Value.as_bytes : Value → Option (List Nat)
  | .bytes v => some v
  | _ => none

/-- `Value::as_bool` (also coerces an `I32`, nonzero meaning true). -/
def Value.as_bool : Value → Option Bool
  | .bool v => some v
  | .i32 v => some (v ≠ 0)
  | _ => none

/-- The bytecode header of `vm/src/vm.rs` (`Header`). -/
structure Header where
  magic : Nat
  version : Nat
  header_length : Nat
  code_length : Nat
  data_length : Nat
deriving DecidableEq

/-- `Header::MAGIC = 0x51564D00`. -/
def Header.MAGIC : Nat := 1364610304

/-- `Header::parse`.  The source checks only `bytes.len() < 12` and then
indexes `bytes[11]..bytes[14]` for `data_length`; for inputs of length 12–14
that pass the magic check, the reads `bytes[12]`, `bytes[13]`, `bytes[14]`
index out of bounds, which in Rust is a panic — modelled by the length-15
test guarding `PResult.panic` below. -/
def Header.parse (bytes : List Nat) : PResult Header :=
  if bytes.length < 12 then
    .err (.invalidBytecode "Header too short")
  else
    let magic := decodeLe32 (bytes.getD 0 0) (bytes.getD 1 0)
      (bytes.getD 2 0) (bytes.getD 3 0)
    if magic ≠ Header.MAGIC then
      .err (.invalidBytecode "Invalid magic number")
    else if bytes.length < 15 then
      .panic
    else
      .ok { magic := magic
            version := bytes.getD 4 0
            header_length := decodeLe16 (bytes.getD 5 0) (bytes.getD 6 0)
            code_length := decodeLe32 (bytes.getD 7 0) (bytes.getD 8 0)
              (bytes.getD 9 0) (bytes.getD 10 0)
            data_length := decodeLe32 (bytes.getD 11 0) (bytes.getD 12 0)
              (bytes.getD 13 0) (bytes.getD 14 0) }

/-- The machine state of `vm/src/vm.rs` (`QuantumVM`).  The list heads of
`stack` and `call_stack` are the tops (the tail end of the Rust `Vec`s);
`memory` models the `HashMap<usize, Value>` extensionally. -/
structure VM where
  stack : List Value
  memory : Nat → Option Value
  code : List Nat
  data : List Nat
  pc : Nat
  call_stack : List Nat
  halted : Bool

/-- `QuantumVM::new`. -/
def VM.new : VM :=
  { stack := []
    memory := fun _ => none
    code := []
    data := []
    pc := 0
    call_stack := []
    halted := false }

/-- `QuantumVM::load_bytecode`. -/
def VM.load_bytecode (s : VM) (bytecode : List Nat) : PResult VM :=
  match Header.parse bytecode with
  | .err e => .err e
  | .panic => .panic
  | .ok header =>
    let header_end := header.header_length
    let code_end := header_end + header.code_length
    let data_end := code_end + header.data_length
    if bytecode.length < data_end then
      .err (.invalidBytecode "Bytecode too short")
    else
      .ok { s with
            code := (bytecode.drop header_end).take header.code_length
            data := (bytecode.drop code_end).take header.data_length
            pc := 0
            halted := false }

/-- The instruction enumeration of `vm/src/opcode.rs` (`OpCode`). -/
inductive OpCode where
  | push | pop | dup | swap
  | add | sub | mul | div
  | eq | ne | lt | le | gt | ge
  | jump | jumpIf | call | ret
  | load | store | loadImm
  | dilithiumVerify | kyberKeyExchange | falconVerify | sphincsVerify
  | print | halt
deriving DecidableEq

/-- `OpCode::try_from(u8)`. -/
def OpCode.tryFrom (value : Nat) : Option OpCode :=
  match value with
  | 0x01 => some .push
  | 0x02 => some .pop
  | 0x03 => some .dup
  | 0x04 => some .swap
  | 0x10 => some .add
  | 0x11 => some .sub
  | 0x12 => some .mul
  | 0x13 => some .div
  | 0x20 => some .eq
  | 0x21 => some .ne
  | 0x22 => some .lt
  | 0x23 => some .le
  | 0x24 => some .gt
  | 0x25 => some .ge
  | 0x30 => some .jump
  | 0x31 => some .jumpIf
  | 0x32 => some .call
  | 0x33 => some .ret
  | 0x40 => some .load
  | 0x41 => some .store
  | 0x42 => some .loadImm
  | 0x80 => some .dilithiumVerify
  | 0x81 => some .kyberKeyExchange
  | 0x82 => some .falconVerify
  | 0x83 => some .sphincsVerify
  | 0xF0 => some .print
  | 0xFF => some .halt
  | _ => none

/-- `dilithium::verify` of `pqc-shims/src/dilithium.rs`: the shim ignores its
arguments and always returns `true`. -/
def dilithium.verify (_msg _sig _pk : List Nat) : Bool := true

/-- `dilithium::sign` of `pqc-shims/src/dilithium.rs`: a zeroed vector of
`DILITHIUM_SIGNATURE_BYTES = 3293` bytes. -/
def dilithium.sign (_msg _sk : List Nat) : List Nat := List.replicate 3293 0

/-- `dilithium::keygen` of `pqc-shims/src/dilithium.rs`: zeroed vectors of
1952 (public) and 4016 (secret) bytes. -/
def dilithium.keygen : List Nat × List Nat :=
  (List.replicate 1952 0, List.replicate 4016 0)

/-- `falcon::verify` of `pqc-shims/src/falcon.rs`: always `true`. -/
def falcon.verify (_msg _sig _pk : List Nat) : Bool := true

/-- `sphincs::verify` of `pqc-shims/src/sphincs.rs`: always `true`. -/
def sphincs.verify (_msg _sig _pk : List Nat) : Bool := true

/-- Result of one dispatch step.  Rust mutates the machine in place and
returns `Err`, so the machine state at the moment of the error is kept in
the `err` constructor; `panic` models an aborted process. -/
inductive StepRes where
  | ok (s : VM)
  | err (e : VMError) (s : VM)
  | panic

/-- `QuantumVM::push`: fails with stack overflow once the stack holds
1000 entries. -/
def VM.push (s : VM) (v : Value) : Option VM :=
  if 1000 ≤ s.stack.length then none
  else some { s with stack := v :: s.stack }

/-- `QuantumVM::pop`. -/
def VM.pop (s : VM) : Option (Value × VM) :=
  match s.stack with
  | [] => none
  | v :: rest => some (v, { s with stack := rest })

/-- `QuantumVM::peek`. -/
def VM.peek (s : VM) : Option Value :=
  s.stack.head?

/-- `QuantumVM::read_u32`: four little-endian code bytes at the program
counter, advancing it; fails (without advancing) when fewer than four bytes
remain. -/
def VM.read_u32 (s : VM) : Option (Nat × VM) :=
  if s.code.length < s.pc + 4 then none
  else some (decodeLe32 (s.code.getD s.pc 0) (s.code.getD (s.pc + 1) 0)
      (s.code.getD (s.pc + 2) 0) (s.code.getD (s.pc + 3) 0),
    { s with pc := s.pc + 4 })

/-- `QuantumVM::read_i32`: as `read_u32` but reinterpreted signed. -/
def VM.read_i32 (s : VM) : Option (Int × VM) :=
  match s.read_u32 with
  | none => none
  | some (n, s') => some (toSigned32 n, s')

/-- `QuantumVM::read_bytes`. -/
def VM.read_bytes (s : VM) (len : Nat) : Option (List Nat × VM) :=
  if s.code.length < s.pc + len then none
  else some ((s.code.drop s.pc).take len, { s with pc := s.pc + len })

/-- Push with the overflow error materialised, as each `self.push(...)?`
call site in the dispatcher. -/
def VM.pushR (s : VM) (v : Value) : StepRes :=
  match s.push v with
  | none => .err .stackOverflow s
  | some s' => .ok s'

/-- The shared shape of the `Add`/`Sub`/`Mul` arms: pop `b`, pop `a` (each
coerced by `as_i32`), push the wrapped result. -/
def VM.binArith (s : VM) (f : Int → Int → Int) : StepRes :=
  match s.pop with
  | none => .err .stackUnderflow s
  | some (vb, s1) =>
    match vb.as_i32 with
    | none => .err (.runtimeError "Expected i32") s1
    | some b =>
      match s1.pop with
      | none => .err .stackUnderflow s1
      | some (va, s2) =>
        match va.as_i32 with
        | none => .err (.runtimeError "Expected i32") s2
        | some a => s2.pushR (.i32 (wrap32 (f a b)))

/-- The shared shape of the `Eq`/`Ne`/`Lt`/`Le`/`Gt`/`Ge` arms: pop `b`,
pop `a`, push the boolean `r a b`. -/
def VM.cmpOp (s : VM) (r : Int → Int → Bool) : StepRes :=
  match s.pop with
  | none => .err .stackUnderflow s
  | some (vb, s1) =>
    match vb.as_i32 with
    | none => .err (.runtimeError "Expected i32") s1
    | some b =>
      match s1.pop with
      | none => .err .stackUnderflow s1
      | some (va, s2) =>
        match va.as_i32 with
        | none => .err (.runtimeError "Expected i32") s2
        | some a => s2.pushR (.bool (r a b))

/-- The shared shape of the `DilithiumVerify`/`FalconVerify`/`SphincsVerify`
arms: the first pop is bound as the public key, the second as the message,
the third as the signature, each required to be a byte value; the verifier
is called as `verify(message, signature, public_key)`. -/
def VM.verifyOp (s : VM) (f : List Nat → List Nat → List Nat → Bool) : StepRes :=
  match s.pop with
  | none => .err .stackUnderflow s
  | some (vpk, s1) =>
    match vpk.as_bytes with
    | none => .err (.runtimeError "Expected bytes") s1
    | some public_key =>
      match s1.pop with
      | none => .err .stackUnderflow s1
      | some (vmsg, s2) =>
        match vmsg.as_bytes with
        | none => .err (.runtimeError "Expected bytes") s2
        | some message =>
          match s2.pop with
          | none => .err .stackUnderflow s2
          | some (vsig, s3) =>
            match vsig.as_bytes with
            | none => .err (.runtimeError "Expected bytes") s3
            | some signature =>
              s3.pushR (.bool (f message signature public_key))

/-- The per-instruction semantics of `QuantumVM::execute_instruction`
(the arms of its `match opcode`), applied to the state whose program
counter has already consumed the opcode byte.  `kyberDecaps` is the
external Kyber decapsulation primitive (`vm.rs` treats its result as the
shared-secret byte vector).  The `Div` arm panics (Rust division
overflow) at `i32::MIN / -1`. -/
def VM.dispatch (kyberDecaps : List Nat → List Nat → List Nat)
    (opcode : OpCode) (s : VM) : StepRes :=
  match opcode with
      | .push =>
        match s.read_i32 with
        | none => .err (.invalidAddress s.pc) s
        | some (value, s1) => s1.pushR (.i32 value)
      | .pop =>
        match s.pop with
        | none => .err .stackUnderflow s
        | some (_, s1) => .ok s1
      | .dup =>
        match s.peek with
        | none => .err .stackUnderflow s
        | some value => s.pushR value
      | .swap =>
        match s.pop with
        | none => .err .stackUnderflow s
        | some (a, s1) =>
          match s1.pop with
          | none => .err .stackUnderflow s1
          | some (b, s2) =>
            match s2.push a with
            | none => .err .stackOverflow s2
            | some s3 => s3.pushR b
      | .add => s.binArith (fun a b => a + b)
      | .sub => s.binArith (fun a b => a - b)
      | .mul => s.binArith (fun a b => a * b)
      | .div =>
        match s.pop with
        | none => .err .stackUnderflow s
        | some (vb, s1) =>
          match vb.as_i32 with
          | none => .err (.runtimeError "Expected i32") s1
          | some b =>
            match s1.pop with
            | none => .err .stackUnderflow s1
            | some (va, s2) =>
              match va.as_i32 with
              | none => .err (.runtimeError "Expected i32") s2
              | some a =>
                if b = 0 then .err (.runtimeError "Division by zero") s2
                else if a = -2147483648 ∧ b = -1 then .panic
                else s2.pushR (.i32 (tdiv32 a b))
      | .eq => s.cmpOp (fun a b => a = b)
      | .ne => s.cmpOp (fun a b => a ≠ b)
      | .lt => s.cmpOp (fun a b => a < b)
      | .le => s.cmpOp (fun a b => a ≤ b)
      | .gt => s.cmpOp (fun a b => b < a)
      | .ge => s.cmpOp (fun a b => b ≤ a)
      | .jump =>
        match s.read_u32 with
        | none => .err (.invalidAddress s.pc) s
        | some (addr, s1) =>
          if s1.code.length ≤ addr then .err (.invalidAddress addr) s1
          else .ok { s1 with pc := addr }
      | .jumpIf =>
        match s.read_u32 with
        | none => .err (.invalidAddress s.pc) s
        | some (addr, s1) =>
          match s1.pop with
          | none => .err .stackUnderflow s1
          | some (vc, s2) =>
            match vc.as_bool with
            | none => .err (.runtimeError "Expected bool") s2
            | some condition =>
              if condition then
                if s2.code.length ≤ addr then .err (.invalidAddress addr) s2
                else .ok { s2 with pc := addr }
              else .ok s2
      | .call =>
        match s.read_u32 with
        | none => .err (.invalidAddress s.pc) s
        | some (addr, s1) =>
          if s1.code.length ≤ addr then .err (.invalidAddress addr) s1
          else .ok { s1 with call_stack := s1.pc :: s1.call_stack, pc := addr }
      | .ret =>
        match s.call_stack with
        | [] => .err (.runtimeError "Return without call") s
        | return_addr :: rest =>
          .ok { s with pc := return_addr, call_stack := rest }
      | .load =>
        match s.pop with
        | none => .err .stackUnderflow s
        | some (va, s1) =>
          match va.as_i32 with
          | none => .err (.runtimeError "Expected i32") s1
          | some v =>
            let addr := usizeOfI32 v
            match s1.memory addr with
            | some value => s1.pushR value
            | none => .err (.invalidAddress addr) s1
      | .store =>
        match s.pop with
        | none => .err .stackUnderflow s
        | some (va, s1) =>
          match va.as_i32 with
          | none => .err (.runtimeError "Expected i32") s1
          | some v =>
            let addr := usizeOfI32 v
            match s1.pop with
            | none => .err .stackUnderflow s1
            | some (value, s2) =>
              .ok { s2 with
                    memory := fun k => if k = addr then some value else s2.memory k }
      | .loadImm =>
        match s.read_u32 with
        | none => .err (.invalidAddress s.pc) s
        | some (len, s1) =>
          match s1.read_bytes len with
          | none => .err (.invalidAddress s1.pc) s1
          | some (bytes, s2) => s2.pushR (.bytes bytes)
      | .dilithiumVerify => s.verifyOp dilithium.verify
      | .kyberKeyExchange =>
        match s.pop with
        | none => .err .stackUnderflow s
        | some (vsk, s1) =>
          match vsk.as_bytes with
          | none => .err (.runtimeError "Expected bytes") s1
          | some private_key =>
            match s1.pop with
            | none => .err .stackUnderflow s1
            | some (vct, s2) =>
              match vct.as_bytes with
              | none => .err (.runtimeError "Expected bytes") s2
              | some ciphertext =>
                s2.pushR (.bytes (kyberDecaps ciphertext private_key))
      | .falconVerify => s.verifyOp falcon.verify
      | .sphincsVerify => s.verifyOp sphincs.verify
      | .print =>
        match s.pop with
        | none => .err .stackUnderflow s
        | some (_, s1) => .ok s1
      | .halt => .ok { s with halted := true }

/-- `QuantumVM::execute_instruction`: bounds check at the program counter,
opcode decode, then dispatch with the counter advanced past the opcode
byte. -/
def VM.execute_instruction
    (kyberDecaps : List Nat → List Nat → List Nat) (s0 : VM) : StepRes :=
  if s0.code.length ≤ s0.pc then .err (.invalidAddress s0.pc) s0
  else
    match OpCode.tryFrom (s0.code.getD s0.pc 0) with
    | none => .err (.invalidInstruction (s0.code.getD s0.pc 0)) s0
    | some opcode => VM.dispatch kyberDecaps opcode { s0 with pc := s0.pc + 1 }

/-- A placeholder decapsulation primitive, used to instantiate the external
parameter where a claim does not depend on it. -/
def kyber0 : List Nat → List Nat → List Nat := fun _ _ => []

/-- `QuantumVM::execute`, with explicit fuel: `none` when the loop is still
running after `fuel` iterations, otherwise the loop's outcome (the loop
stops successfully when halted or the program counter passes the end of
code, and returns the first error otherwise). -/
def VM.execute (kyberDecaps : List Nat → List Nat → List Nat) :
    Nat → VM → Option StepRes
  | 0, s =>
    if s.halted = false ∧ s.pc < s.code.length then none else some (.ok s)
  | fuel + 1, s =>
    if s.halted = false ∧ s.pc < s.code.length then
      match s.execute_instruction kyberDecaps with
      | .ok s' => VM.execute kyberDecaps fuel s'
      | .err e s' => some (.err e s')
      | .panic => some .panic
    else some (.ok s)

/-- The operand-stack bound holds in the machine state carried by a step
result (vacuously for a panic, which has no surviving state). -/
def StepRes.stackBound : StepRes → Prop
  | .ok s => s.stack.length ≤ 1000
  | .err _ s => s.stack.length ≤ 1000
  | .panic => True

/-- `n` consecutive `push` calls with no intervening pops. -/
def VM.pushN (s : VM) : Nat → Option VM
  | 0 => some s
  | n + 1 =>
    match s.push (.i32 0) with
    | none => none
    | some s' => VM.pushN s' n

/-- Modelled from the spec: the external Kyber key-encapsulation mechanism.
`pqc-shims/src/kyber.rs` delegates `keygen`/`encaps`/`decaps` to the external
`pqcrypto` crate (`mlkem768`), which is not part of this repository, so the
primitive is modelled by its interface contract of spec §6: `encapsulate`
may produce a (ciphertext, shared-secret) pair from a public key, and
`decapsulate(ciphertext, private_key)` recovers exactly that shared secret
for a matching key pair. -/
structure KEM where
  keypairs : List Nat → List Nat → Prop
  encapsR : List Nat → List Nat × List Nat → Prop
  decaps : List Nat → List Nat → List Nat
  decaps_encaps : ∀ pk sk ct ss,
    keypairs pk sk → encapsR pk (ct, ss) → decaps ct sk = ss

/-- A concrete key-encapsulation mechanism satisfying the interface
contract, used to instantiate `KEM` on closed inputs. -/
def kemW : KEM where
  keypairs pk sk := pk = [1] ∧ sk = [2]
  encapsR pk cs := pk = [1] ∧ cs = ([3], [7])
  decaps ct sk := if ct = [3] ∧ sk = [2] then [7] else []
  decaps_encaps := by
    intro pk sk ct ss hkp henc
    have h1 : ct = [3] ∧ ss = [7] := by
      have := henc.2
      exact ⟨congrArg Prod.fst this, congrArg Prod.snd this⟩
    simp [h1.1, h1.2, hkp.2]

/-- The decode side of the bytecode container: `Header::parse` plus the
section slicing of `QuantumVM::load_bytecode`, returning the header and the
code and data sections. -/
def decode (b : List Nat) : PResult (Header × List Nat × List Nat) :=
  match Header.parse b with
  | .err e => .err e
  | .panic => .panic
  | .ok header =>
    let header_end := header.header_length
    let code_end := header_end + header.code_length
    let data_end := code_end + header.data_length
    if b.length < data_end then
      .err (.invalidBytecode "Bytecode too short")
    else
      .ok (header, (b.drop header_end).take header.code_length,
        (b.drop code_end).take header.data_length)

/-- Modelled from the spec: the bytecode assembler/encoder (the `Assembler`
of the `quantumvm` crate, referenced by the compiler and the tests but not
present among the VM sources).  Per spec §4.6 and §6 it emits the wire
format `[magic:u32 LE][version:u8][header_length:u16 LE][code_length:u32 LE]
[data_length:u32 LE][code bytes][data bytes]`, computing the three lengths
to exactly match the emitted buffers (so `header_length = 15`). -/
def encode (version : Nat) (code data : List Nat) : List Nat :=
  encodeLe32 Header.MAGIC ++ [version] ++ encodeLe16 15 ++
    encodeLe32 code.length ++ encodeLe32 data.length ++ code ++ data

/-- Re-encoding of a decoded blob: the composition the round-trip claim is
about. -/
def reencode (b : List Nat) : Option (List Nat) :=
  match decode b with
  | .ok (header, code, data) => some (encode header.version code data)
  | _ => none

/-- A 12-byte input with a valid magic sentinel (shorter than the 15 bytes
`Header::parse` reads). -/
def hdr12 : List Nat := [0, 77, 86, 81, 1, 15, 0, 0, 0, 0, 0, 0]

/-- A 13-byte input with a valid magic sentinel. -/
def hdr13 : List Nat := hdr12 ++ [0]

/-- A 14-byte input with a valid magic sentinel. -/
def hdr14 : List Nat := hdr13 ++ [0]

/-- A message for the Dilithium claim. -/
def c2msg : List Nat := [1, 2, 3]

/-- The shim signature of `c2msg` with its first byte corrupted
(`dilithium::sign` returns 3293 zero bytes; the corrupted copy starts
with 1). -/
def corruptedSig : List Nat := 1 :: List.replicate 3292 0

/-- Machine state about to execute `DilithiumVerify` after pushing, in
order, the shim public key, the message, and the genuine shim signature
(stack head is the top, i.e. the last value pushed). -/
def c2sGood : VM :=
  { VM.new with
    code := [0x80]
    stack := [.bytes (dilithium.sign c2msg dilithium.keygen.2),
      .bytes c2msg, .bytes dilithium.keygen.1] }

/-- As `c2sGood` but with the pushed signature corrupted in one byte. -/
def c2sBad : VM :=
  { VM.new with
    code := [0x80]
    stack := [.bytes corruptedSig, .bytes c2msg, .bytes dilithium.keygen.1] }

/-- Machine state about to execute `Jump 9` in a 5-byte code section (the
target 9 is out of range). -/
def c3s : VM := { VM.new with code := [0x30, 9, 0, 0, 0] }

/-- Machine state about to execute `Call 9` in a 5-byte code section. -/
def c3sW : VM := { VM.new with code := [0x32, 9, 0, 0, 0] }

/-- Machine state about to execute `KyberKeyExchange` after pushing, in
order, the private key `[2]` and then the ciphertext `[3]` of `kemW` (the
push order stated by the round-trip claim; stack head is the top). -/
def c4s : VM :=
  { VM.new with code := [0x81], stack := [.bytes [3], .bytes [2]] }

/-- Machine state about to execute `KyberKeyExchange` after pushing the
ciphertext `[3]` first and the private key `[2]` last. -/
def c4sW : VM :=
  { VM.new with code := [0x81], stack := [.bytes [2], .bytes [3]] }

/-- A blob accepted by `decode` that carries one trailing byte beyond the
declared sections: header of 15 bytes (version 1, `header_length` 15,
`code_length` 1, `data_length` 0), one code byte `0xFF`, one extra byte. -/
def c5blob : List Nat :=
  [0, 77, 86, 81, 1, 15, 0, 1, 0, 0, 0, 0, 0, 0, 0, 255, 7]

/-- A minimal exact-length blob: 15-byte header, one code byte, one data
byte. -/
def c5blobW : List Nat :=
  [0, 77, 86, 81, 1, 15, 0, 1, 0, 0, 0, 1, 0, 0, 0, 255, 9]

/-- The header carried by `c5blob` and `c5blobW` (version 1, the 15-byte
fixed layout). -/
def c5hdr (cl dl : Nat) : Header :=
  { magic := Header.MAGIC
    version := 1
    header_length := 15
    code_length := cl
    data_length := dl }

/-- The program `Push 5; Push 0; Div; Halt` of the division claim. -/
def c8code : List Nat :=
  [0x01, 5, 0, 0, 0, 0x01, 0, 0, 0, 0, 0x13, 0xFF]

/-- A fresh machine loaded with `c8code`. -/
def c8s : VM := { VM.new with code := c8code }

/-- `c8s` after `Push 5`. -/
def c8s1 : VM := { c8s with stack := [.i32 5], pc := 5 }

/-- `c8s` after `Push 5; Push 0`. -/
def c8s2 : VM := { c8s with stack := [.i32 0, .i32 5], pc := 10 }

/-- The state in which the division-by-zero error is raised: both operands
popped, the program counter just past `Div` (the `Halt` at byte 11 never
runs), not halted. -/
def c8sErr : VM := { c8s with pc := 11 }

/-- Machine state about to divide `-7` by `2`. -/
def c8div : VM :=
  { VM.new with code := [0x13], stack := [.i32 2, .i32 (-7)] }

/-- Machine state about to divide `-2147483648` (`i32::MIN`, the value
below the divisor on the stack) by `-1`. -/
def divPanicS : VM :=
  { VM.new with code := [0x13], stack := [.i32 (-1), .i32 (-2147483648)] }

/-- Machine state about to execute `Call 6`, where the code byte at 6 is
`Return` (byte 5 is `Halt`, where execution resumes after the pair). -/
def c9sW : VM := { VM.new with code := [0x32, 6, 0, 0, 0, 0xFF, 0x33] }

/-- Machine state with an empty call stack about to execute `Return`. -/
def c9sE : VM := { VM.new with code := [0x33], pc := 0 }

/-- Machine state about to execute `LoadImm 2` followed by exactly two
inline bytes. -/
def c7sOk : VM := { VM.new with code := [0x42, 2, 0, 0, 0, 7, 8] }

/-- Machine state about to execute `LoadImm 9` with only two inline bytes
remaining. -/
def c7sBad : VM := { VM.new with code := [0x42, 9, 0, 0, 0, 7, 8] }

/-- A machine carrying residual state (a stack entry, a memory binding, a
return address, the halted flag) from a previous run, about to be reloaded. -/
def c10s : VM :=
  { stack := [.i32 42]
    memory := fun k => if k = 3 then some (.bool true) else none
    code := [0xFF]
    data := [1]
    pc := 7
    call_stack := [5]
    halted := true }

/-- The state `c10s` after a successful reload with `c5blobW`: fresh code,
data and control state, residual stack, memory and call stack. -/
def c10after : VM :=
  { c10s with code := [255], data := [9], pc := 0, halted := false }

/-- `read_u32` on a machine whose program counter was just set to `p`:
succeeds whenever four code bytes remain, yielding the little-endian value
and advancing the counter. -/
theorem read_u32_shift (s : VM) (p : Nat) (h : p + 4 ≤ s.code.length) :
    VM.read_u32 { s with pc := p } =
      some (decodeLe32 (s.code.getD p 0) (s.code.getD (p + 1) 0)
        (s.code.getD (p + 2) 0) (s.code.getD (p + 3) 0), { s with pc := p + 4 }) := by
  unfold VM.read_u32
  rw [if_neg (show ¬({ s with pc := p } : VM).code.length <
      ({ s with pc := p } : VM).pc + 4 from by
    show ¬s.code.length < p + 4
    omega)]

/-- A successful `push` yields a stack within the bound and one entry
longer. -/
theorem push_some_bound {s : VM} {v : Value} {s' : VM}
    (h : s.push v = some s') :
    s'.stack.length ≤ 1000 ∧ s'.stack.length = s.stack.length + 1 := by
  unfold VM.push at h
  split at h
  · exact absurd h (by simp)
  · rename_i hlt
    rw [Option.some.injEq] at h
    subst h
    constructor
    · simp only [List.length_cons]
      omega
    · simp

/-- `push` fails exactly when the stack already holds at least 1000
entries (the source's overflow guard). -/
theorem push_none_iff (s : VM) (v : Value) :
    s.push v = none ↔ 1000 ≤ s.stack.length := by
  unfold VM.push
  split <;> rename_i hc <;> simp [hc]

/-- The materialised push (`pushR`) keeps the stack within the bound. -/
theorem pushR_bound {s : VM} (v : Value) (h : s.stack.length ≤ 1000) :
    StepRes.stackBound (s.pushR v) := by
  unfold VM.pushR
  cases hp : s.push v with
  | none => exact h
  | some s' => exact (push_some_bound hp).1

/-- A successful `pop` shortens the stack by one entry. -/
theorem pop_some_len {s : VM} {v : Value} {s' : VM}
    (h : s.pop = some (v, s')) :
    s'.stack.length + 1 = s.stack.length := by
  unfold VM.pop at h
  cases hs : s.stack with
  | nil => rw [hs] at h; exact absurd h (by simp)
  | cons a t =>
    rw [hs] at h
    dsimp only at h
    rw [Option.some.injEq, Prod.mk.injEq] at h
    obtain ⟨h1, h2⟩ := h
    subst h2
    simp

/-- `read_u32` leaves the operand stack untouched. -/
theorem read_u32_some_stack {s : VM} {n : Nat} {s' : VM}
    (h : s.read_u32 = some (n, s')) : s'.stack = s.stack := by
  unfold VM.read_u32 at h
  split at h
  · exact absurd h (by simp)
  · rw [Option.some.injEq, Prod.mk.injEq] at h
    obtain ⟨h1, h2⟩ := h
    subst h2
    rfl

/-- `read_i32` leaves the operand stack untouched. -/
theorem read_i32_some_stack {s : VM} {v : Int} {s' : VM}
    (h : s.read_i32 = some (v, s')) : s'.stack = s.stack := by
  unfold VM.read_i32 at h
  cases hr : s.read_u32 with
  | none => rw [hr] at h; exact absurd h (by simp)
  | some p =>
    obtain ⟨n, s1⟩ := p
    rw [hr] at h
    dsimp only at h
    rw [Option.some.injEq, Prod.mk.injEq] at h
    obtain ⟨h1, h2⟩ := h
    subst h2
    exact read_u32_some_stack hr

/-- `read_bytes` leaves the operand stack untouched. -/
theorem read_bytes_some_stack {s : VM} {len : Nat} {bs : List Nat} {s' : VM}
    (h : s.read_bytes len = some (bs, s')) : s'.stack = s.stack := by
  unfold VM.read_bytes at h
  split at h
  · exact absurd h (by simp)
  · rw [Option.some.injEq, Prod.mk.injEq] at h
    obtain ⟨h1, h2⟩ := h
    subst h2
    rfl

/-- The shared arithmetic arm keeps the stack within the bound. -/
theorem binArith_bound (s : VM) (f : Int → Int → Int)
    (h : s.stack.length ≤ 1000) : StepRes.stackBound (s.binArith f) := by
  unfold VM.binArith
  cases h1 : s.pop with
  | none => exact h
  | some p =>
    obtain ⟨vb, s1⟩ := p
    dsimp only
    have l1 := pop_some_len h1
    cases vb.as_i32 with
    | none => show s1.stack.length ≤ 1000; omega
    | some b =>
      cases h2 : s1.pop with
      | none => show s1.stack.length ≤ 1000; omega
      | some q =>
        obtain ⟨va, s2⟩ := q
        dsimp only
        have l2 := pop_some_len h2
        cases va.as_i32 with
        | none => show s2.stack.length ≤ 1000; omega
        | some a => exact pushR_bound _ (by omega)

/-- The shared comparison arm keeps the stack within the bound. -/
theorem cmpOp_bound (s : VM) (r : Int → Int → Bool)
    (h : s.stack.length ≤ 1000) : StepRes.stackBound (s.cmpOp r) := by
  unfold VM.cmpOp
  cases h1 : s.pop with
  | none => exact h
  | some p =>
    obtain ⟨vb, s1⟩ := p
    dsimp only
    have l1 := pop_some_len h1
    cases vb.as_i32 with
    | none => show s1.stack.length ≤ 1000; omega
    | some b =>
      cases h2 : s1.pop with
      | none => show s1.stack.length ≤ 1000; omega
      | some q =>
        obtain ⟨va, s2⟩ := q
        dsimp only
        have l2 := pop_some_len h2
        cases va.as_i32 with
        | none => show s2.stack.length ≤ 1000; omega
        | some a => exact pushR_bound _ (by omega)

/-- The shared verification arm keeps the stack within the bound. -/
theorem verifyOp_bound (s : VM) (f : List Nat → List Nat → List Nat → Bool)
    (h : s.stack.length ≤ 1000) : StepRes.stackBound (s.verifyOp f) := by
  unfold VM.verifyOp
  cases h1 : s.pop with
  | none => exact h
  | some p =>
    obtain ⟨v1, s1⟩ := p
    dsimp only
    have l1 := pop_some_len h1
    cases v1.as_bytes with
    | none => show s1.stack.length ≤ 1000; omega
    | some pk =>
      cases h2 : s1.pop with
      | none => show s1.stack.length ≤ 1000; omega
      | some q =>
        obtain ⟨v2, s2⟩ := q
        dsimp only
        have l2 := pop_some_len h2
        cases v2.as_bytes with
        | none => show s2.stack.length ≤ 1000; omega
        | some msg =>
          cases h3 : s2.pop with
          | none => show s2.stack.length ≤ 1000; omega
          | some u =>
            obtain ⟨v3, s3⟩ := u
            dsimp only
            have l3 := pop_some_len h3
            cases v3.as_bytes with
            | none => show s3.stack.length ≤ 1000; omega
            | some sig => exact pushR_bound _ (by omega)

/-- Every instruction arm keeps the stack within the 1000-entry bound. -/
theorem dispatch_stack_bound (kd : List Nat → List Nat → List Nat)
    (op : OpCode) (s : VM) (h : s.stack.length ≤ 1000) :
    StepRes.stackBound (VM.dispatch kd op s) := by
  cases op with
  | push =>
    dsimp only [VM.dispatch]
    cases hr : s.read_i32 with
    | none => exact h
    | some p =>
      obtain ⟨v, s1⟩ := p
      dsimp only
      refine pushR_bound _ ?_
      rw [read_i32_some_stack hr]
      exact h
  | pop =>
    dsimp only [VM.dispatch]
    cases h1 : s.pop with
    | none => exact h
    | some p =>
      obtain ⟨v, s1⟩ := p
      dsimp only
      have := pop_some_len h1
      show s1.stack.length ≤ 1000
      omega
  | dup =>
    dsimp only [VM.dispatch]
    cases s.peek with
    | none => exact h
    | some v => exact pushR_bound _ h
  | swap =>
    dsimp only [VM.dispatch]
    cases h1 : s.pop with
    | none => exact h
    | some p =>
      obtain ⟨a, s1⟩ := p
      dsimp only
      have l1 := pop_some_len h1
      cases h2 : s1.pop with
      | none => show s1.stack.length ≤ 1000; omega
      | some q =>
        obtain ⟨b, s2⟩ := q
        dsimp only
        have l2 := pop_some_len h2
        cases h3 : s2.push a with
        | none => show s2.stack.length ≤ 1000; omega
        | some s3 => exact pushR_bound _ (push_some_bound h3).1
  | add => exact binArith_bound s _ h
  | sub => exact binArith_bound s _ h
  | mul => exact binArith_bound s _ h
  | div =>
    dsimp only [VM.dispatch]
    cases h1 : s.pop with
    | none => exact h
    | some p =>
      obtain ⟨vb, s1⟩ := p
      dsimp only
      have l1 := pop_some_len h1
      cases vb.as_i32 with
      | none => show s1.stack.length ≤ 1000; omega
      | some b =>
        cases h2 : s1.pop with
        | none => show s1.stack.length ≤ 1000; omega
        | some q =>
          obtain ⟨va, s2⟩ := q
          dsimp only
          have l2 := pop_some_len h2
          cases va.as_i32 with
          | none => show s2.stack.length ≤ 1000; omega
          | some a =>
            dsimp only
            split
            · show s2.stack.length ≤ 1000; omega
            · split
              · trivial
              · exact pushR_bound _ (by omega)
  | eq => exact cmpOp_bound s _ h
  | ne => exact cmpOp_bound s _ h
  | lt => exact cmpOp_bound s _ h
  | le => exact cmpOp_bound s _ h
  | gt => exact cmpOp_bound s _ h
  | ge => exact cmpOp_bound s _ h
  | jump =>
    dsimp only [VM.dispatch]
    cases hr : s.read_u32 with
    | none => exact h
    | some p =>
      obtain ⟨addr, s1⟩ := p
      dsimp only
      have hs1 := read_u32_some_stack hr
      split
      · show s1.stack.length ≤ 1000; rw [hs1]; exact h
      · show s1.stack.length ≤ 1000; rw [hs1]; exact h
  | jumpIf =>
    dsimp only [VM.dispatch]
    cases hr : s.read_u32 with
    | none => exact h
    | some p =>
      obtain ⟨addr, s1⟩ := p
      dsimp only
      have hs1 := read_u32_some_stack hr
      have hb1 : s1.stack.length ≤ 1000 := by rw [hs1]; exact h
      cases h1 : s1.pop with
      | none => exact hb1
      | some q =>
        obtain ⟨vc, s2⟩ := q
        dsimp only
        have l1 := pop_some_len h1
        cases vc.as_bool with
        | none => show s2.stack.length ≤ 1000; omega
        | some condition =>
          dsimp only
          split
          · split
            · show s2.stack.length ≤ 1000; omega
            · show s2.stack.length ≤ 1000; omega
          · show s2.stack.length ≤ 1000; omega
  | call =>
    dsimp only [VM.dispatch]
    cases hr : s.read_u32 with
    | none => exact h
    | some p =>
      obtain ⟨addr, s1⟩ := p
      dsimp only
      have hs1 := read_u32_some_stack hr
      split
      · show s1.stack.length ≤ 1000; rw [hs1]; exact h
      · show s1.stack.length ≤ 1000; rw [hs1]; exact h
  | ret =>
    dsimp only [VM.dispatch]
    cases s.call_stack with
    | nil => exact h
    | cons r rest => exact h
  | load =>
    dsimp only [VM.dispatch]
    cases h1 : s.pop with
    | none => exact h
    | some p =>
      obtain ⟨va, s1⟩ := p
      dsimp only
      have l1 := pop_some_len h1
      cases va.as_i32 with
      | none => show s1.stack.length ≤ 1000; omega
      | some v =>
        dsimp only
        cases s1.memory (usizeOfI32 v) with
        | some value => exact pushR_bound _ (by omega)
        | none => show s1.stack.length ≤ 1000; omega
  | store =>
    dsimp only [VM.dispatch]
    cases h1 : s.pop with
    | none => exact h
    | some p =>
      obtain ⟨va, s1⟩ := p
      dsimp only
      have l1 := pop_some_len h1
      cases va.as_i32 with
      | none => show s1.stack.length ≤ 1000; omega
      | some v =>
        cases h2 : s1.pop with
        | none => show s1.stack.length ≤ 1000; omega
        | some q =>
          obtain ⟨value, s2⟩ := q
          dsimp only
          have l2 := pop_some_len h2
          show s2.stack.length ≤ 1000
          omega
  | loadImm =>
    dsimp only [VM.dispatch]
    cases hr : s.read_u32 with
    | none => exact h
    | some p =>
      obtain ⟨len, s1⟩ := p
      dsimp only
      have hs1 := read_u32_some_stack hr
      cases h2 : s1.read_bytes len with
      | none => show s1.stack.length ≤ 1000; rw [hs1]; exact h
      | some q =>
        obtain ⟨bs, s2⟩ := q
        dsimp only
        refine pushR_bound _ ?_
        rw [read_bytes_some_stack h2, hs1]
        exact h
  | dilithiumVerify => exact verifyOp_bound s _ h
  | kyberKeyExchange =>
    dsimp only [VM.dispatch]
    cases h1 : s.pop with
    | none => exact h
    | some p =>
      obtain ⟨vsk, s1⟩ := p
      dsimp only
      have l1 := pop_some_len h1
      cases vsk.as_bytes with
      | none => show s1.stack.length ≤ 1000; omega
      | some private_key =>
        cases h2 : s1.pop with
        | none => show s1.stack.length ≤ 1000; omega
        | some q =>
          obtain ⟨vct, s2⟩ := q
          dsimp only
          have l2 := pop_some_len h2
          cases vct.as_bytes with
          | none => show s2.stack.length ≤ 1000; omega
          | some ciphertext => exact pushR_bound _ (by omega)
  | falconVerify => exact verifyOp_bound s _ h
  | sphincsVerify => exact verifyOp_bound s _ h
  | print =>
    dsimp only [VM.dispatch]
    cases h1 : s.pop with
    | none => exact h
    | some p =>
      obtain ⟨v, s1⟩ := p
      dsimp only
      have := pop_some_len h1
      show s1.stack.length ≤ 1000
      omega
  | halt => exact h

/-- Iterated pushes from a stack within the bound succeed exactly while the
resulting size stays within the bound. -/
theorem pushN_isSome : ∀ (n : Nat) (s : VM), s.stack.length ≤ 1000 →
    ((s.pushN n).isSome ↔ s.stack.length + n ≤ 1000) := by
  intro n
  induction n with
  | zero =>
    intro s h
    simp only [VM.pushN, Option.isSome_some, true_iff]
    omega
  | succ k ih =>
    intro s h
    unfold VM.pushN
    cases hp : s.push (.i32 0) with
    | none =>
      have hge := (push_none_iff s (.i32 0)).1 hp
      dsimp only
      exact iff_of_false (by simp) (by omega)
    | some s' =>
      have hb := push_some_bound hp
      dsimp only
      rw [ih s' hb.1, hb.2]
      constructor <;> intro <;> omega

/-- C6: every instruction preserves the 1000-entry operand-stack bound
(also in the state carried by a failed step); `push` fails with overflow
exactly when the stack already holds 1000 entries (given the bound, the
source guard `1000 ≤ length` is that equality); and from an empty stack a
run of pushes without intervening pops succeeds exactly up to the 1000th
push, so the 1001st fails. -/
theorem C6_stack_bound_invariant :
    (∀ (kd : List Nat → List Nat → List Nat) (s : VM),
      s.stack.length ≤ 1000 →
      StepRes.stackBound (s.execute_instruction kd)) ∧
    (∀ (s : VM) (v : Value), s.stack.length ≤ 1000 →
      (s.push v = none ↔ s.stack.length = 1000)) ∧
    (∀ n : Nat, (VM.new.pushN n).isSome ↔ n ≤ 1000) := by
  refine ⟨?_, ?_, ?_⟩
  · intro kd s h
    unfold VM.execute_instruction
    split
    · exact h
    · cases OpCode.tryFrom (s.code.getD s.pc 0) with
      | none => exact h
      | some op => exact dispatch_stack_bound kd op _ h
  · intro s v h
    rw [push_none_iff]
    omega
  · intro n
    have := pushN_isSome n VM.new (by decide)
    simpa [VM.new] using this

/-- C6 (witness): the invariant statement at the empty machine. -/
theorem C6_stack_bound_invariant_witness :
    StepRes.stackBound (VM.new.execute_instruction kyber0) ∧
    (VM.new.push (.i32 0) = none ↔ VM.new.stack.length = 1000) ∧
    ((VM.new.pushN 1001).isSome ↔ 1001 ≤ 1000) :=
  ⟨C6_stack_bound_invariant.1 kyber0 VM.new (by decide),
   C6_stack_bound_invariant.2.1 VM.new (.i32 0) (by decide),
   C6_stack_bound_invariant.2.2 1001⟩

/-- C1: `Header::parse` rejects inputs shorter than 12 bytes with the typed
`InvalidBytecode` error, but on inputs of length 12, 13 and 14 whose magic
sentinel matches it reads past the end of the byte slice — a Rust panic,
not the typed format error the claim requires. -/
theorem C1_header_parse_reads_out_of_bounds :
    Header.parse (hdr12.take 11) = .err (.invalidBytecode "Header too short") ∧
    Header.parse hdr12 = .panic ∧
    Header.parse hdr13 = .panic ∧
    Header.parse hdr14 = .panic := by
  refine ⟨by decide, by decide, by decide, by decide⟩

/-- C2: the Dilithium shim's `verify` always returns `true`, so
`DilithiumVerify` pushes `true` both for the genuine shim signature and for
the same signature with one corrupted byte — the claim requires `false` in
the corrupted case. -/
theorem C2_dilithium_verify_is_stubbed :
    c2sGood.execute_instruction kyber0 =
      .ok { c2sGood with stack := [.bool true], pc := 1 } ∧
    corruptedSig ≠ dilithium.sign c2msg dilithium.keygen.2 ∧
    c2sBad.execute_instruction kyber0 =
      .ok { c2sBad with stack := [.bool true], pc := 1 } :=
  ⟨rfl, by decide, rfl⟩

/-- C3 (counterexample): executing `Jump 9` in a 5-byte code section fails
with the invalid-address error, but the program counter in the failed state
is 5 (just past the inline operand), not the pre-fetch value 0 the claim
requires. -/
theorem C3_counterexample :
    c3s.pc = 0 ∧
    c3s.execute_instruction kyber0 = .err (.invalidAddress 9) { c3s with pc := 5 } ∧
    (5 : Nat) ≠ 0 :=
  ⟨rfl, rfl, by decide⟩

/-- C3 (amended): a `Jump` or `Call` whose inline 32-bit little-endian
target is at least the code length fails with the invalid-address error
naming the target, and the program counter is never set to that target: it
is left exactly five bytes past the instruction's fetch position (the
opcode byte plus the four operand bytes), with all other state unchanged. -/
theorem C3_jump_call_bad_target (kd : List Nat → List Nat → List Nat)
    (s : VM) (addr : Nat)
    (hop : s.code.getD s.pc 0 = 0x30 ∨ s.code.getD s.pc 0 = 0x32)
    (hlen : s.pc + 5 ≤ s.code.length)
    (haddr : decodeLe32 (s.code.getD (s.pc + 1) 0) (s.code.getD (s.pc + 2) 0)
      (s.code.getD (s.pc + 3) 0) (s.code.getD (s.pc + 4) 0) = addr)
    (hout : s.code.length ≤ addr) :
    s.execute_instruction kd = .err (.invalidAddress addr) { s with pc := s.pc + 5 } := by
  have hru : VM.read_u32 { s with pc := s.pc + 1 } =
      some (addr, { s with pc := s.pc + 5 }) := by
    unfold VM.read_u32
    rw [if_neg (show ¬({ s with pc := s.pc + 1 } : VM).code.length <
        ({ s with pc := s.pc + 1 } : VM).pc + 4 from by
      show ¬s.code.length < s.pc + 1 + 4
      omega)]
    show some (decodeLe32 (s.code.getD (s.pc + 1) 0) (s.code.getD (s.pc + 1 + 1) 0)
      (s.code.getD (s.pc + 1 + 2) 0) (s.code.getD (s.pc + 1 + 3) 0),
      ({ s with pc := s.pc + 1 + 4 } : VM)) = _
    rw [show s.pc + 1 + 1 = s.pc + 2 from by omega,
      show s.pc + 1 + 2 = s.pc + 3 from by omega,
      show s.pc + 1 + 3 = s.pc + 4 from by omega, haddr]
  unfold VM.execute_instruction
  rw [if_neg (by omega)]
  rcases hop with h | h <;>
    simp only [h, OpCode.tryFrom, VM.dispatch, hru] <;>
    rw [if_pos (show ({ s with pc := s.pc + 5 } : VM).code.length ≤ addr from hout)]

/-- C3 (witness): the amended statement at the concrete state `c3sW`
(`Call 9` in a 5-byte code section). -/
theorem C3_jump_call_bad_target_witness :
    c3sW.execute_instruction kyber0 = .err (.invalidAddress 9) { c3sW with pc := 5 } :=
  C3_jump_call_bad_target kyber0 c3sW 9 (Or.inr rfl) (by decide) (by decide) (by decide)

/-- C4 (counterexample): with the claim's push order — private key `[2]`
first, then ciphertext `[3]` — the top of the stack is the ciphertext, so
the first pop (bound as the private key in the source) receives the
ciphertext: the arguments reach `decaps` swapped and the pushed secret is
`[]`, not the encapsulated secret `[7]`. -/
theorem C4_counterexample :
    kemW.keypairs [1] [2] ∧ kemW.encapsR [1] ([3], [7]) ∧
    c4s.execute_instruction kemW.decaps =
      .ok { c4s with stack := [.bytes []], pc := 1 } ∧
    ([] : List Nat) ≠ [7] :=
  ⟨⟨rfl, rfl⟩, ⟨rfl, rfl⟩, rfl, by decide⟩

/-- C5 (counterexample): `decode` accepts the 17-byte blob `c5blob`, whose
declared sections end at byte 16, leaving one trailing byte; any §6-format
re-encoding of the decoded header and sections is the 16-byte prefix, so
`encode(decode(b))` does not reproduce `b`. -/
theorem C5_counterexample :
    decode c5blob = .ok (c5hdr 1 0, [255], []) ∧
    reencode c5blob = some (c5blob.take 16) ∧
    c5blob.take 16 ≠ c5blob := by
  refine ⟨by decide, by decide, by decide⟩

/-- C4 (amended): pushing the ciphertext and then the private key (so that
the private key is popped first and the ciphertext second, as the source
binds them), `KyberKeyExchange` pushes exactly the decapsulated shared
secret — the one produced by the matching `encapsulate` call — and always
performs decapsulation (`decaps ct sk`), never encapsulation. -/
theorem C4_kyber_decapsulates (K : KEM) (pk sk ct ss : List Nat)
    (rest : List Value) (s : VM)
    (hkp : K.keypairs pk sk) (henc : K.encapsR pk (ct, ss))
    (hpc : s.pc < s.code.length) (hop : s.code.getD s.pc 0 = 0x81)
    (hstack : s.stack = .bytes sk :: .bytes ct :: rest)
    (hroom : s.stack.length ≤ 1000) :
    s.execute_instruction K.decaps =
      .ok { s with stack := .bytes ss :: rest, pc := s.pc + 1 } := by
  have hd : K.decaps ct sk = ss := K.decaps_encaps pk sk ct ss hkp henc
  have hrest : rest.length + 2 ≤ 1000 := by
    rw [hstack] at hroom
    simpa using hroom
  unfold VM.execute_instruction
  rw [if_neg (by omega)]
  simp only [hop, OpCode.tryFrom, VM.dispatch, VM.pop, VM.pushR, VM.push, hstack,
    Value.as_bytes, hd]
  rw [if_neg (show ¬1000 ≤ rest.length from by omega)]

/-- C4 (witness): the amended statement at `c4sW` with the concrete
mechanism `kemW`. -/
theorem C4_kyber_decapsulates_witness :
    c4sW.execute_instruction kemW.decaps =
      .ok { c4sW with stack := [.bytes [7]], pc := 1 } :=
  C4_kyber_decapsulates kemW [1] [2] [3] [7] [] c4sW ⟨rfl, rfl⟩ ⟨rfl, rfl⟩
    (by decide) rfl rfl (by decide)

/-- C9: `Return` with an empty call stack fails with the runtime error
"Return without call" (never silently ignored), and a `Call` whose target
holds a `Return` first transfers control to the target with the resume
address on the call stack, after which the `Return` restores exactly the
resume point: the program counter just past the `Call` instruction, with
the call stack as it was before the pair. -/
theorem C9_return_call_contract :
    (∀ (kd : List Nat → List Nat → List Nat) (s : VM),
      s.pc < s.code.length → s.code.getD s.pc 0 = 0x33 → s.call_stack = [] →
      s.execute_instruction kd =
        .err (.runtimeError "Return without call") { s with pc := s.pc + 1 }) ∧
    (∀ (kd : List Nat → List Nat → List Nat) (s : VM) (addr : Nat),
      s.pc + 5 ≤ s.code.length → s.code.getD s.pc 0 = 0x32 →
      decodeLe32 (s.code.getD (s.pc + 1) 0) (s.code.getD (s.pc + 2) 0)
        (s.code.getD (s.pc + 3) 0) (s.code.getD (s.pc + 4) 0) = addr →
      addr < s.code.length → s.code.getD addr 0 = 0x33 →
      s.execute_instruction kd =
        .ok { s with pc := addr, call_stack := (s.pc + 5) :: s.call_stack } ∧
      VM.execute_instruction kd
          { s with pc := addr, call_stack := (s.pc + 5) :: s.call_stack } =
        .ok { s with pc := s.pc + 5 }) := by
  constructor
  · intro kd s hpc hop hcs
    unfold VM.execute_instruction
    rw [if_neg (by omega)]
    simp only [hop, OpCode.tryFrom, VM.dispatch, hcs]
  · intro kd s addr hlen hop haddr hin hret
    have hru := read_u32_shift s (s.pc + 1) (by omega)
    rw [show s.pc + 1 + 1 = s.pc + 2 from by omega,
      show s.pc + 1 + 2 = s.pc + 3 from by omega,
      show s.pc + 1 + 3 = s.pc + 4 from by omega,
      show s.pc + 1 + 4 = s.pc + 5 from by omega, haddr] at hru
    constructor
    · unfold VM.execute_instruction
      rw [if_neg (by omega)]
      simp only [hop, OpCode.tryFrom, VM.dispatch, hru]
      rw [if_neg (show ¬({ s with pc := s.pc + 5 } : VM).code.length ≤ addr from by
        show ¬s.code.length ≤ addr
        omega)]
    · unfold VM.execute_instruction
      rw [if_neg (show ¬({ s with pc := addr, call_stack := (s.pc + 5) :: s.call_stack } : VM).code.length ≤ ({ s with pc := addr, call_stack := (s.pc + 5) :: s.call_stack } : VM).pc from by
        show ¬s.code.length ≤ addr
        omega)]
      simp only [hret, OpCode.tryFrom, VM.dispatch]

/-- C9 (witness): the contract at `c9sE` (empty call stack) and `c9sW`
(`Call 6` whose target byte is `Return`). -/
theorem C9_return_call_contract_witness :
    c9sE.execute_instruction kyber0 =
      .err (.runtimeError "Return without call") { c9sE with pc := 1 } ∧
    c9sW.execute_instruction kyber0 =
      .ok { c9sW with pc := 6, call_stack := [5] } ∧
    VM.execute_instruction kyber0 { c9sW with pc := 6, call_stack := [5] } =
      .ok { c9sW with pc := 5 } := by
  refine ⟨C9_return_call_contract.1 kyber0 c9sE (by decide) rfl rfl, ?_, ?_⟩
  · exact (C9_return_call_contract.2 kyber0 c9sW 6 (by decide) rfl (by decide)
      (by decide) rfl).1
  · exact (C9_return_call_contract.2 kyber0 c9sW 6 (by decide) rfl (by decide)
      (by decide) rfl).2

/-- C10: a successful `load_bytecode` replaces the code and data sections
with the blob's declared sections, resets the program counter to 0 and the
halted flag to false, and leaves the operand stack, the memory map and the
call stack exactly as they were. -/
theorem C10_load_preserves_run_state (s : VM) (b : List Nat) (s' : VM)
    (h : s.load_bytecode b = .ok s') :
    s'.stack = s.stack ∧ s'.memory = s.memory ∧ s'.call_stack = s.call_stack ∧
    s'.pc = 0 ∧ s'.halted = false ∧
    ∃ hd : Header, Header.parse b = .ok hd ∧
      s'.code = (b.drop hd.header_length).take hd.code_length ∧
      s'.data = (b.drop (hd.header_length + hd.code_length)).take hd.data_length := by
  unfold VM.load_bytecode at h
  cases hp : Header.parse b with
  | err e => rw [hp] at h; exact absurd h (by simp)
  | panic => rw [hp] at h; exact absurd h (by simp)
  | ok hd =>
    rw [hp] at h
    dsimp only at h
    by_cases hsz : b.length < hd.header_length + hd.code_length + hd.data_length
    · rw [if_pos hsz] at h
      exact absurd h (by simp)
    · rw [if_neg hsz] at h
      have h' := h
      injection h' with h''
      subst h''
      exact ⟨rfl, rfl, rfl, rfl, rfl, hd, rfl, rfl, rfl⟩

/-- C10 (witness): reloading `c10s` (which carries residual stack, memory,
call-stack and halted state) with the blob `c5blobW`. -/
theorem C10_load_preserves_run_state_witness :
    c10after.stack = c10s.stack ∧ c10after.memory = c10s.memory ∧
    c10after.call_stack = c10s.call_stack ∧
    c10after.pc = 0 ∧ c10after.halted = false ∧
    ∃ hd : Header, Header.parse c5blobW = .ok hd ∧
      c10after.code = (c5blobW.drop hd.header_length).take hd.code_length ∧
      c10after.data =
        (c5blobW.drop (hd.header_length + hd.code_length)).take hd.data_length :=
  C10_load_preserves_run_state c10s c5blobW c10after rfl

/-- C7: `LoadImm` whose inline 32-bit length `L` is followed by at least
`L` code bytes pushes a byte-sequence value of exactly those `L` bytes
(advancing the program counter past them); with fewer than `L` bytes
remaining the instruction fails with a typed error (the truncated-operand
decode failure, surfaced as `InvalidAddress` at the read position) and
pushes nothing. -/
theorem C7_loadimm_contract (kd : List Nat → List Nat → List Nat)
    (s : VM) (L : Nat)
    (hlen5 : s.pc + 5 ≤ s.code.length)
    (hop : s.code.getD s.pc 0 = 0x42)
    (hL : decodeLe32 (s.code.getD (s.pc + 1) 0) (s.code.getD (s.pc + 2) 0)
      (s.code.getD (s.pc + 3) 0) (s.code.getD (s.pc + 4) 0) = L) :
    (s.pc + 5 + L ≤ s.code.length → s.stack.length < 1000 →
      s.execute_instruction kd =
        .ok { s with
              stack := .bytes ((s.code.drop (s.pc + 5)).take L) :: s.stack,
              pc := s.pc + 5 + L } ∧
      ((s.code.drop (s.pc + 5)).take L).length = L) ∧
    (s.code.length < s.pc + 5 + L →
      s.execute_instruction kd =
        .err (.invalidAddress (s.pc + 5)) { s with pc := s.pc + 5 }) := by
  have hru := read_u32_shift s (s.pc + 1) (by omega)
  rw [show s.pc + 1 + 1 = s.pc + 2 from by omega,
    show s.pc + 1 + 2 = s.pc + 3 from by omega,
    show s.pc + 1 + 3 = s.pc + 4 from by omega,
    show s.pc + 1 + 4 = s.pc + 5 from by omega, hL] at hru
  constructor
  · intro hfit hro
    constructor
    · unfold VM.execute_instruction
      rw [if_neg (by omega)]
      simp only [hop, OpCode.tryFrom, VM.dispatch, hru, VM.read_bytes, VM.pushR, VM.push]
      rw [if_neg (show ¬({ s with pc := s.pc + 5 } : VM).code.length <
          ({ s with pc := s.pc + 5 } : VM).pc + L from by
        show ¬s.code.length < s.pc + 5 + L
        omega)]
      dsimp only
      rw [if_neg (show ¬1000 ≤ s.stack.length from by omega)]
    · simp only [List.length_take, List.length_drop]
      omega
  · intro hshort
    unfold VM.execute_instruction
    rw [if_neg (by omega)]
    simp only [hop, OpCode.tryFrom, VM.dispatch, hru, VM.read_bytes]
    rw [if_pos (show ({ s with pc := s.pc + 5 } : VM).code.length <
        ({ s with pc := s.pc + 5 } : VM).pc + L from by
      show s.code.length < s.pc + 5 + L
      omega)]

/-- C7 (witness): the contract at `c7sOk` (`LoadImm 2` with two inline
bytes) and `c7sBad` (`LoadImm 9` with two inline bytes remaining). -/
theorem C7_loadimm_contract_witness :
    (c7sOk.execute_instruction kyber0 =
      .ok { c7sOk with stack := [.bytes [7, 8]], pc := 7 } ∧
      ((c7sOk.code.drop 5).take 2).length = 2) ∧
    c7sBad.execute_instruction kyber0 =
      .err (.invalidAddress 5) { c7sBad with pc := 5 } := by
  refine ⟨?_, ?_⟩
  · exact (C7_loadimm_contract kyber0 c7sOk 2 (by decide) rfl (by decide)).1
      (by decide) (by decide)
  · exact (C7_loadimm_contract kyber0 c7sBad 9 (by decide) rfl (by decide)).2
      (by decide)

/-- C8 (counterexample): `Div` with divisor `-1` (nonzero) and dividend
`-2147483648` does not push the quotient: Rust's `i32` division overflows
and panics. -/
theorem C8_counterexample :
    divPanicS.execute_instruction kyber0 = .panic ∧ (-1 : Int) ≠ 0 :=
  ⟨rfl, by decide⟩

/-- One applied iteration of the execution loop: when the loop condition
holds and the instruction succeeds, the loop continues on the new state. -/
theorem execute_step (kd : List Nat → List Nat → List Nat) (fuel : Nat)
    (s s' : VM) (hrun : s.halted = false ∧ s.pc < s.code.length)
    (hstep : s.execute_instruction kd = .ok s') :
    VM.execute kd (fuel + 1) s = VM.execute kd fuel s' := by
  simp only [VM.execute]
  rw [if_pos hrun, hstep]

/-- One applied iteration of the execution loop: when the loop condition
holds and the instruction fails, the loop returns the error at once. -/
theorem execute_err (kd : List Nat → List Nat → List Nat) (fuel : Nat)
    (s : VM) (e : VMError) (s' : VM)
    (hrun : s.halted = false ∧ s.pc < s.code.length)
    (hstep : s.execute_instruction kd = .err e s') :
    VM.execute kd (fuel + 1) s = some (.err e s') := by
  simp only [VM.execute]
  rw [if_pos hrun, hstep]

/-- C8 (amended): running `Push 5; Push 0; Div; Halt` fails with the
division-by-zero runtime error for every sufficient fuel, stopping with the
program counter just past `Div` (byte 11, the `Halt`, never executes and
the machine is not halted); in general `Div` pops `b` then `a` and fails
with the division-by-zero runtime error exactly when `b = 0`, panics on the
`i32` overflow `a = -2147483648, b = -1`, and for every other pair pushes
the truncated quotient. -/
theorem C8_div_contract :
    (∀ n : Nat, VM.execute kyber0 (n + 3) c8s =
      some (.err (.runtimeError "Division by zero") c8sErr)) ∧
    c8sErr.halted = false ∧ c8sErr.pc = 11 ∧ c8s.code.getD 11 0 = 0xFF ∧
    (∀ (kd : List Nat → List Nat → List Nat) (s : VM) (b a : Int)
      (rest : List Value),
      s.pc < s.code.length → s.code.getD s.pc 0 = 0x13 →
      s.stack = .i32 b :: .i32 a :: rest →
      ((b = 0 → s.execute_instruction kd =
          .err (.runtimeError "Division by zero")
            { s with stack := rest, pc := s.pc + 1 }) ∧
        (b ≠ 0 → ¬(a = -2147483648 ∧ b = -1) → rest.length < 1000 →
          s.execute_instruction kd =
            .ok { s with stack := .i32 (tdiv32 a b) :: rest, pc := s.pc + 1 }) ∧
        (a = -2147483648 → b = -1 →
          s.execute_instruction kd = .panic))) := by
  refine ⟨?_, rfl, rfl, rfl, ?_⟩
  · intro n
    calc VM.execute kyber0 (n + 3) c8s
        = VM.execute kyber0 (n + 2) c8s1 :=
          execute_step kyber0 (n + 2) c8s c8s1 (by decide) rfl
      _ = VM.execute kyber0 (n + 1) c8s2 :=
          execute_step kyber0 (n + 1) c8s1 c8s2 (by decide) rfl
      _ = some (.err (.runtimeError "Division by zero") c8sErr) :=
          execute_err kyber0 n c8s2 (.runtimeError "Division by zero") c8sErr
            (by decide) rfl
  · intro kd s b a rest hpc hop hstack
    have hstep : s.execute_instruction kd = VM.dispatch kd .div { s with pc := s.pc + 1 } := by
      unfold VM.execute_instruction
      rw [if_neg (by omega)]
      simp only [hop, OpCode.tryFrom]
    refine ⟨?_, ?_, ?_⟩
    · intro hb0
      subst hb0
      rw [hstep]
      dsimp only [VM.dispatch]
      simp [VM.pop, hstack, Value.as_i32]
    · intro hb0 hnof hroom
      rw [hstep]
      dsimp only [VM.dispatch]
      simp only [VM.pop, hstack, Value.as_i32, VM.pushR, VM.push]
      rw [if_neg hb0, if_neg hnof, if_neg (show ¬1000 ≤ rest.length from by omega)]
    · intro ha hb
      subst ha
      subst hb
      rw [hstep]
      dsimp only [VM.dispatch]
      simp [VM.pop, hstack, Value.as_i32]

/-- C8 (witness): the amended contract at the concrete program `c8s`
(fuel 3), at `-7 / 2`, and at the overflow pair. -/
theorem C8_div_contract_witness :
    VM.execute kyber0 3 c8s =
      some (.err (.runtimeError "Division by zero") c8sErr) ∧
    c8div.execute_instruction kyber0 =
      .ok { c8div with stack := [.i32 (tdiv32 (-7) 2)], pc := 1 } ∧
    divPanicS.execute_instruction kyber0 = .panic := by
  refine ⟨C8_div_contract.1 0, ?_, ?_⟩
  · exact (C8_div_contract.2.2.2.2 kyber0 c8div 2 (-7) [] (by decide) rfl
      rfl).2.1 (by decide) (by decide) (by decide)
  · exact (C8_div_contract.2.2.2.2 kyber0 divPanicS (-1) (-2147483648) []
      (by decide) rfl rfl).2.2 rfl rfl

/-- Little-endian 32-bit encode inverts decode on byte-bounded inputs. -/
theorem encodeLe32_decodeLe32 {b0 b1 b2 b3 : Nat}
    (h0 : b0 < 256) (h1 : b1 < 256) (h2 : b2 < 256) (h3 : b3 < 256) :
    encodeLe32 (decodeLe32 b0 b1 b2 b3) = [b0, b1, b2, b3] := by
  have e0 : (b0 + 256 * b1 + 65536 * b2 + 16777216 * b3) % 256 = b0 := by omega
  have e1 : (b0 + 256 * b1 + 65536 * b2 + 16777216 * b3) / 256 % 256 = b1 := by
    omega
  have e2 : (b0 + 256 * b1 + 65536 * b2 + 16777216 * b3) / 65536 % 256 = b2 := by
    omega
  have e3 : (b0 + 256 * b1 + 65536 * b2 + 16777216 * b3) / 16777216 % 256 = b3 := by
    omega
  simp [encodeLe32, decodeLe32, e0, e1, e2, e3]

/-- Little-endian 16-bit encode inverts decode on byte-bounded inputs. -/
theorem encodeLe16_decodeLe16 {b0 b1 : Nat} (h0 : b0 < 256) (h1 : b1 < 256) :
    encodeLe16 (decodeLe16 b0 b1) = [b0, b1] := by
  have e0 : (b0 + 256 * b1) % 256 = b0 := by omega
  have e1 : (b0 + 256 * b1) / 256 % 256 = b1 := by omega
  simp [encodeLe16, decodeLe16, e0, e1]

/-- Dropping `k` elements of a sufficiently long list peels off the element
at `k`. -/
theorem drop_cons_getD (l : List Nat) (k : Nat) (hk : k < l.length) :
    l.drop k = l.getD k 0 :: l.drop (k + 1) := by
  rw [List.getD_eq_getElem l 0 hk]
  exact List.drop_eq_getElem_cons hk

/-- A list of at least 15 elements is its first 15 elements followed by the
rest. -/
theorem list_head15 (l : List Nat) (h : 15 ≤ l.length) :
    l = [l.getD 0 0, l.getD 1 0, l.getD 2 0, l.getD 3 0, l.getD 4 0,
      l.getD 5 0, l.getD 6 0, l.getD 7 0, l.getD 8 0, l.getD 9 0,
      l.getD 10 0, l.getD 11 0, l.getD 12 0, l.getD 13 0, l.getD 14 0] ++
      l.drop 15 := by
  have e0 := drop_cons_getD l 0 (by omega)
  have e1 := drop_cons_getD l 1 (by omega)
  have e2 := drop_cons_getD l 2 (by omega)
  have e3 := drop_cons_getD l 3 (by omega)
  have e4 := drop_cons_getD l 4 (by omega)
  have e5 := drop_cons_getD l 5 (by omega)
  have e6 := drop_cons_getD l 6 (by omega)
  have e7 := drop_cons_getD l 7 (by omega)
  have e8 := drop_cons_getD l 8 (by omega)
  have e9 := drop_cons_getD l 9 (by omega)
  have e10 := drop_cons_getD l 10 (by omega)
  have e11 := drop_cons_getD l 11 (by omega)
  have e12 := drop_cons_getD l 12 (by omega)
  have e13 := drop_cons_getD l 13 (by omega)
  have e14 := drop_cons_getD l 14 (by omega)
  calc l = l.drop 0 := (List.drop_zero l).symm
    _ = _ := by
      simp [e0, e1, e2, e3, e4, e5, e6, e7, e8, e9, e10, e11, e12, e13, e14]

/-- C5 (amended): for every byte-bounded blob accepted by `decode` whose
`header_length` field is the fixed 15-byte layout and whose length is
exactly `15 + code_length + data_length` (no header padding, no trailing
bytes), re-encoding the decoded header and sections reproduces the blob
byte-for-byte. -/
theorem C5_roundtrip_exact (b : List Nat) (hd : Header) (c d : List Nat)
    (hbytes : ∀ x ∈ b, x < 256)
    (h : decode b = .ok (hd, c, d))
    (hhl : hd.header_length = 15)
    (hexact : b.length = 15 + hd.code_length + hd.data_length) :
    reencode b = some b := by
  have h0 := h
  unfold decode at h
  cases hp : Header.parse b with
  | err e => rw [hp] at h; exact absurd h (by simp)
  | panic => rw [hp] at h; exact absurd h (by simp)
  | ok hd' =>
    rw [hp] at h
    dsimp only at h
    split at h
    · exact absurd h (by simp)
    · rename_i hfit
      rw [PResult.ok.injEq, Prod.mk.injEq, Prod.mk.injEq] at h
      obtain ⟨hhd, hc, hdd⟩ := h
      subst hhd
      unfold Header.parse at hp
      split at hp
      · exact absurd hp (by simp)
      · rename_i h12
        dsimp only at hp
        split at hp
        · exact absurd hp (by simp)
        · rename_i hmagne
          split at hp
          · exact absurd hp (by simp)
          · rename_i h15
            rw [PResult.ok.injEq] at hp
            subst hp
            dsimp only at hhl hexact hc hdd
            have hmag := not_ne_iff.mp hmagne
            have hblen : 15 ≤ b.length := by omega
            have hb : ∀ i, i < b.length → b.getD i 0 < 256 := by
              intro i hi
              rw [List.getD_eq_getElem b 0 hi]
              exact hbytes _ (List.getElem_mem hi)
            rw [hhl] at hc hdd
            set CL := decodeLe32 (b.getD 7 0) (b.getD 8 0) (b.getD 9 0)
              (b.getD 10 0) with hCL
            set DL := decodeLe32 (b.getD 11 0) (b.getD 12 0) (b.getD 13 0)
              (b.getD 14 0) with hDL
            have hlc : c.length = CL := by
              rw [← hc]
              simp only [List.length_take, List.length_drop]
              omega
            have hld : d.length = DL := by
              rw [← hdd]
              simp only [List.length_take, List.length_drop]
              omega
            have hcd : c ++ d = b.drop 15 := by
              rw [← hc, ← hdd]
              rw [show b.drop (15 + CL) = (b.drop 15).drop CL from
                (List.drop_drop CL 15 b).symm]
              rw [show ((b.drop 15).drop CL).take DL = (b.drop 15).drop CL from
                List.take_of_length_le (by
                  simp only [List.length_drop]
                  omega)]
              exact List.take_append_drop CL (b.drop 15)
            have e0123 : encodeLe32 Header.MAGIC =
                [b.getD 0 0, b.getD 1 0, b.getD 2 0, b.getD 3 0] := by
              rw [← hmag]
              exact encodeLe32_decodeLe32 (hb 0 (by omega)) (hb 1 (by omega))
                (hb 2 (by omega)) (hb 3 (by omega))
            have e56 : encodeLe16 15 = [b.getD 5 0, b.getD 6 0] := by
              rw [← hhl]
              exact encodeLe16_decodeLe16 (hb 5 (by omega)) (hb 6 (by omega))
            have e710 : encodeLe32 CL =
                [b.getD 7 0, b.getD 8 0, b.getD 9 0, b.getD 10 0] := by
              rw [hCL]
              exact encodeLe32_decodeLe32 (hb 7 (by omega)) (hb 8 (by omega))
                (hb 9 (by omega)) (hb 10 (by omega))
            have e1114 : encodeLe32 DL =
                [b.getD 11 0, b.getD 12 0, b.getD 13 0, b.getD 14 0] := by
              rw [hDL]
              exact encodeLe32_decodeLe32 (hb 11 (by omega)) (hb 12 (by omega))
                (hb 13 (by omega)) (hb 14 (by omega))
            unfold reencode
            rw [h0]
            dsimp only
            rw [Option.some.injEq]
            unfold encode
            rw [e0123, e56, hlc, e710, hld, e1114]
            conv_rhs => rw [list_head15 b hblen]
            simp only [List.append_assoc, List.cons_append, List.nil_append,
              hcd]

/-- C5 (witness): the amended round-trip at the exact-length blob
`c5blobW`. -/
theorem C5_roundtrip_exact_witness : reencode c5blobW = some c5blobW :=
  C5_roundtrip_exact c5blobW (c5hdr 1 1) [255] [9] (by decide) (by decide)
    rfl (by decide)

end SynQ


